import Mathlib

/-!
Shallow embedding of the port-knock authorization engine of
`src/port_knocking/knock_server.py`, and proofs of the specification's
claims about it.

Modelling conventions:
* Timestamps (`time.time()` results) and the sequence window are modelled as
  integers (`Int`): every claim about the engine depends only on ordering and
  subtraction of times, never on fractional values.
* The session store `knock_attempts` (a Python `dict` keyed by client IP) is
  modelled as an association list with dict semantics: assignment replaces the
  entry for an existing key in place, `del` removes it.
* The firewall gateway (`subprocess` calls to `iptables`) is modelled by an
  effect trace.  `open_protected_port` catches `CalledProcessError` and
  `FileNotFoundError` (lines 37-40), so it never raises: it is a total
  function from the outcome of the external command to the list of logged
  effects.
* Knock ports are `Int` (Python ints parsed from the configuration).
-/

namespace KnockServer

/-- Per-address knock session: `knock_attempts[ip] = {'ports': ..., 'start_time': ...}`
(knock_server.py lines 100-103). -/
structure Session where
  ports : List Int
  started_at : Int
deriving DecidableEq, Repr

/-- The immutable configuration of `listen_for_knocks(sequence, window_seconds,
protected_port)` (line 61). -/
structure Policy where
  sequence : List Int
  window : Int
  protected_port : Int
deriving DecidableEq, Repr

/-- A knock event: source address, knocked port, arrival time
(lines 91-96 of the accept loop). -/
structure KnockEvent where
  addr : String
  port : Int
  time : Int
deriving DecidableEq, Repr

/-- Outcome of the external `subprocess.run(["iptables", ...])` call inside
`open_protected_port` (lines 29-40). -/
inductive GatewayResult where
  | ok
  | calledProcessError
  | fileNotFound
deriving DecidableEq, Repr

/-- Observable gateway effects of the engine. `grant` is the iptables ACCEPT
invocation of `open_protected_port`, `deny` the default-deny DROP rule of
`close_protected_port`; `grantFailed` / `demoWarn` are the error reports of
the two `except` arms of `open_protected_port`. -/
inductive Effect where
  | deny (protected_port : Int)
  | grant (protected_port : Int) (addr : String)
  | grantFailed (addr : String)
  | demoWarn
deriving DecidableEq, Repr

/-- The session store `knock_attempts` (line 69): a dict keyed by client IP,
modelled as an association list. -/
abbrev Store := List (String × Session)

/-- Dict lookup `knock_attempts[ip]` / membership `ip in knock_attempts`. -/
def lookup : Store → String → Option Session
  | [], _ => none
  | p :: st, a => if p.1 = a then some p.2 else lookup st a

/-- Dict assignment `knock_attempts[ip] = s`: replaces the entry of an
existing key in place, otherwise appends a new entry. -/
def insert : Store → String → Session → Store
  | [], a, s => [(a, s)]
  | p :: st, a, s => if p.1 = a then (a, s) :: st else p :: insert st a s

/-- Dict deletion `del knock_attempts[ip]`. -/
def erase : Store → String → Store
  | [], _ => []
  | p :: st, a => if p.1 = a then erase st a else p :: erase st a

/-- The store's keys are pairwise distinct (a Python dict cannot hold two
entries for one key; the association-list model makes this a provable
invariant rather than a typing fact). -/
def keysNodup (st : Store) : Prop := (st.map Prod.fst).Nodup

instance (st : Store) : Decidable (keysNodup st) := by
  unfold keysNodup; infer_instance

/-- `open_protected_port(protected_port, client_ip)` (lines 24-40): runs the
iptables ACCEPT command; a `CalledProcessError` is caught and reported, a
`FileNotFoundError` is caught with a demo-mode warning.  No exception
escapes, so the function is total; its value is the effect trace. -/
def open_protected_port (protected_port : Int) (client_ip : String)
    (res : GatewayResult) : List Effect :=
  Effect.grant protected_port client_ip ::
    (match res with
     | GatewayResult.ok => []
     | GatewayResult.calledProcessError => [Effect.grantFailed client_ip]
     | GatewayResult.fileNotFound => [Effect.demoWarn])

/-- `close_protected_port(protected_port)` (lines 43-58): installs the
default-deny DROP rule (failures are likewise caught and only logged). -/
def close_protected_port (protected_port : Int) : List Effect :=
  [Effect.deny protected_port]

/-- Lines 72-84: one listening socket is bound per port of the sequence; a
port that fails to bind is skipped (`continue`), so the listener set serves
exactly the ports of the sequence whose bind succeeded. -/
def bindSockets (sequence : List Int) (bindOk : Int → Bool) : List Int :=
  sequence.filter bindOk

/-- The session present for `ev.addr` after lines 99-103 (`knock_attempts`
is given a fresh empty entry `{'ports': [], 'start_time': current_time}` when
the address is unseen). -/
def sessionFor (st : Store) (ev : KnockEvent) : Session :=
  match lookup st ev.addr with
  | none => { ports := [], started_at := ev.time }
  | some s => s

/-- The session recorded for `ev.addr` after the window check of lines
105-115: reset to `{'ports': [knock_port], 'start_time': current_time}` when
the elapsed time exceeds the window, otherwise the knocked port is appended. -/
def accumulate (pol : Policy) (st : Store) (ev : KnockEvent) : Session :=
  if ev.time - (sessionFor st ev).started_at > pol.window then
    { ports := [ev.port], started_at := ev.time }
  else
    { ports := (sessionFor st ev).ports ++ [ev.port],
      started_at := (sessionFor st ev).started_at }

/-- One knock event through the body of the accept loop, lines 96-131 of
`listen_for_knocks`: ensure a tracking entry exists (99-103), reset or append
according to the window (105-115), then resolve a full-length sequence
(122-131) by granting on an exact match and deleting the entry either way.
`g` is the outcome of the external iptables command when it is invoked. -/
def processKnock (pol : Policy) (g : GatewayResult) (st : Store)
    (ev : KnockEvent) : Store × List Effect :=
  -- lines 99-103: initialize tracking for this IP if not exists
  let st0 : Store :=
    match lookup st ev.addr with
    | none => insert st ev.addr { ports := [], started_at := ev.time }
    | some _ => st
  match lookup st0 ev.addr with
  | none => (st0, [])  -- unreachable: lines 99-103 just ensured the entry
  | some s =>
    -- lines 105-115: check if sequence window expired; reset or append
    let st1 : Store :=
      if ev.time - s.started_at > pol.window then
        insert st0 ev.addr { ports := [ev.port], started_at := ev.time }
      else
        insert st0 ev.addr { ports := s.ports ++ [ev.port], started_at := s.started_at }
    match lookup st1 ev.addr with
    | none => (st1, [])  -- unreachable: the entry was just written
    | some s1 =>
      -- lines 122-131: check if sequence is complete and correct
      if s1.ports.length = pol.sequence.length then
        if s1.ports = pol.sequence then
          (erase st1 ev.addr, open_protected_port pol.protected_port ev.addr g)
        else
          (erase st1 ev.addr, [])
      else
        (st1, [])

/-- The expiry sweep of lines 138-146: the entries whose age exceeds the
window are collected and deleted (keys are unique in the dict, so this is
exactly a filter keeping the non-expired entries).  The sweep touches no
socket and no firewall rule. -/
def sweep (pol : Policy) (now : Int) (st : Store) : Store :=
  st.filter (fun p => !(now - p.2.started_at > pol.window))

/-- One serialized input to the engine loop: either an accepted knock
(with the gateway outcome used if a grant results) or a timer tick that
triggers the cleanup of lines 138-146. -/
inductive EngineInput where
  | knock (ev : KnockEvent) (g : GatewayResult)
  | tick (now : Int)
deriving DecidableEq, Repr

/-- One iteration step of the `while True` loop of `listen_for_knocks`. -/
def engineStep (pol : Policy) (st : Store) : EngineInput → Store × List Effect
  | EngineInput.knock ev g => processKnock pol g st ev
  | EngineInput.tick now => (sweep pol now st, [])

/-- The engine loop run over a finite list of serialized inputs, threading
the session store and concatenating the emitted gateway effects. -/
def engineRun (pol : Policy) : Store → List EngineInput → Store × List Effect
  | st, [] => (st, [])
  | st, i :: is =>
    ((engineRun pol (engineStep pol st i).1 is).1,
     (engineStep pol st i).2 ++ (engineRun pol (engineStep pol st i).1 is).2)

/-- Number of gateway grant invocations in an effect trace. -/
def grantCount (es : List Effect) : Nat :=
  es.countP (fun e => match e with
    | Effect.grant _ _ => true
    | _ => false)

/-- Python `s.split(sep)` for a single-character separator: always yields at
least one (possibly empty) piece; `"".split(",") == [""]`. -/
def pySplit (sep : Char) : List Char → List (List Char)
  | [] => [[]]
  | c :: cs =>
    if c = sep then [] :: pySplit sep cs
    else
      match pySplit sep cs with
      | [] => [[c]]  -- unreachable: pySplit never returns []
      | r :: rs => (c :: r) :: rs

/-- Digit tail of a Python decimal integer literal: digits with single
underscores allowed only between digits (`int("1_2") == 12`,
`int("1_") `/` int("1__2")` raise `ValueError`). -/
def pyDigitsAux (acc : Nat) : List Char → Option Nat
  | [] => some acc
  | c :: cs =>
    if c = '_' then
      match cs with
      | [] => none
      | c2 :: cs2 =>
        if c2.isDigit then pyDigitsAux (acc * 10 + (c2.toNat - 48)) cs2 else none
    else if c.isDigit then pyDigitsAux (acc * 10 + (c.toNat - 48)) cs else none

/-- An unsigned Python decimal literal: at least one digit. -/
def pyDigits : List Char → Option Nat
  | [] => none
  | c :: cs => if c.isDigit then pyDigitsAux (c.toNat - 48) cs else none

/-- Surrounding-whitespace stripping performed by Python `int(str)`. -/
def pyStrip (l : List Char) : List Char :=
  ((l.dropWhile Char.isWhitespace).reverse.dropWhile Char.isWhitespace).reverse

/-- Python `int(str)` on a decimal string: optional surrounding whitespace,
optional sign, then a digit string; `none` models a raised `ValueError`. -/
def pyInt? (l : List Char) : Option Int :=
  match pyStrip l with
  | '+' :: rest => (pyDigits rest).map (fun n => (n : Int))
  | '-' :: rest => (pyDigits rest).map (fun n => -(n : Int))
  | rest => (pyDigits rest).map (fun n => (n : Int))

/-- The list comprehension `[int(port) for port in args.sequence.split(",")]`
(line 178): the first element that raises `ValueError` aborts the whole
comprehension. -/
def intsOfParts (f : α → Option β) : List α → Option (List β)
  | [] => some []
  | a :: as =>
    match f a with
    | some b => (intsOfParts f as).map (fun bs => b :: bs)
    | none => none

/-- Lines 177-180 of `main`: parse the `--sequence` option; `none` models the
`SystemExit("Invalid sequence. Use comma-separated integers.")`. -/
def parse_sequence (s : String) : Option (List Int) :=
  intsOfParts pyInt? (pySplit ',' s.data)

/-- `main` (lines 173-187): parse the sequence (exiting fatally on failure
before touching the firewall or any socket), install the default-deny rule
via `close_protected_port`, then run the knock listener loop.  The value is
`none` on the fatal startup error, otherwise the final store and the full
gateway effect trace. -/
def pyMain (sequenceArg : String) (protected_port : Int) (window : Int)
    (inputs : List EngineInput) : Option (Store × List Effect) :=
  match parse_sequence sequenceArg with
  | none => none  -- SystemExit: invalid sequence
  | some seq =>
    let pol : Policy :=
      { sequence := seq, window := window, protected_port := protected_port }
    let run := engineRun pol [] inputs
    some (run.1, close_protected_port protected_port ++ run.2)

/-! ### Store lemmas -/

theorem lookup_insert_self (st : Store) (a : String) (s : Session) :
    lookup (insert st a s) a = some s := by
  induction st with
  | nil => simp [insert, lookup]
  | cons p st ih =>
    by_cases h : p.1 = a
    · simp [insert, h, lookup]
    · simp [insert, h, lookup, ih]

theorem lookup_insert_ne (st : Store) (a b : String) (s : Session)
    (hne : b ≠ a) : lookup (insert st a s) b = lookup st b := by
  have hab : a ≠ b := Ne.symm hne
  induction st with
  | nil => simp [insert, lookup, hab]
  | cons p st ih =>
    by_cases h : p.1 = a
    · have hpb : p.1 ≠ b := fun hb => hne (hb.symm.trans h)
      simp [insert, h, lookup, hab, hpb]
    · simp [insert, h, lookup, ih]

theorem lookup_erase_self (st : Store) (a : String) :
    lookup (erase st a) a = none := by
  induction st with
  | nil => simp [erase, lookup]
  | cons p st ih =>
    by_cases h : p.1 = a <;> simp [erase, h, lookup, ih]

theorem lookup_erase_ne (st : Store) (a b : String) (hne : b ≠ a) :
    lookup (erase st a) b = lookup st b := by
  induction st with
  | nil => simp [erase]
  | cons p st ih =>
    have hab : a ≠ b := Ne.symm hne
    by_cases h : p.1 = a
    · have hpb : p.1 ≠ b := fun hb => hne (hb.symm.trans h)
      simp [erase, h, lookup, ih, hpb, hab]
    · simp [erase, h, lookup, ih]

theorem insert_insert (st : Store) (a : String) (s1 s2 : Session) :
    insert (insert st a s1) a s2 = insert st a s2 := by
  induction st with
  | nil => simp [insert]
  | cons p st ih =>
    by_cases h : p.1 = a <;> simp [insert, h, ih]

theorem erase_insert (st : Store) (a : String) (s : Session) :
    erase (insert st a s) a = erase st a := by
  induction st with
  | nil => simp [insert, erase]
  | cons p st ih =>
    by_cases h : p.1 = a <;> simp [insert, erase, h, ih]

theorem lookup_mem (st : Store) (a : String) (s : Session)
    (h : lookup st a = some s) : (a, s) ∈ st := by
  induction st with
  | nil => simp [lookup] at h
  | cons p st ih =>
    rw [lookup] at h
    by_cases hp : p.1 = a
    · rw [if_pos hp] at h
      obtain ⟨pa, ps⟩ := p
      simp only at hp
      injection h with h2
      subst hp
      subst h2
      exact List.mem_cons_self _ _
    · rw [if_neg hp] at h
      exact List.mem_cons_of_mem _ (ih h)

theorem mem_insert_elim (st : Store) (a : String) (s : Session)
    (p : String × Session) (h : p ∈ insert st a s) : p = (a, s) ∨ p ∈ st := by
  induction st with
  | nil => simpa [insert] using h
  | cons q st ih =>
    by_cases hq : q.1 = a
    · simp [insert, hq] at h
      rcases h with h | h
      · exact Or.inl h
      · exact Or.inr (List.mem_cons_of_mem _ h)
    · simp [insert, hq] at h
      rcases h with h | h
      · exact Or.inr (by simp [h])
      · rcases ih h with h' | h'
        · exact Or.inl h'
        · exact Or.inr (List.mem_cons_of_mem _ h')

theorem erase_sublist (st : Store) (a : String) : (erase st a).Sublist st := by
  induction st with
  | nil => simp [erase]
  | cons p st ih =>
    by_cases h : p.1 = a
    · simp only [erase, h, if_true]
      exact ih.cons _
    · simp only [erase, h, if_false]
      exact ih.cons₂ _

theorem mem_keys_insert (st : Store) (a b : String) (s : Session)
    (h : b ∈ (insert st a s).map Prod.fst) :
    b = a ∨ b ∈ st.map Prod.fst := by
  induction st with
  | nil => simpa [insert] using h
  | cons p st ih =>
    by_cases hp : p.1 = a
    · simp [insert, hp] at h
      rcases h with h | h
      · exact Or.inl h
      · exact Or.inr (by simp [h])
    · simp [insert, hp] at h
      rcases h with h | h
      · exact Or.inr (by simp [h])
      · rcases ih (by simpa using h) with h' | h'
        · exact Or.inl h'
        · exact Or.inr (by simp; right; simpa using h')

theorem keysNodup_insert (st : Store) (a : String) (s : Session)
    (h : keysNodup st) : keysNodup (insert st a s) := by
  induction st with
  | nil => simp [insert, keysNodup]
  | cons p st ih =>
    unfold keysNodup at h ⊢
    simp only [List.map_cons, List.nodup_cons] at h
    by_cases hp : p.1 = a
    · subst hp
      simp only [insert, eq_self_iff_true, if_true, List.map_cons, List.nodup_cons]
      exact h
    · simp only [insert, hp, if_false, List.map_cons, List.nodup_cons]
      refine ⟨fun hmem => ?_, ih h.2⟩
      rcases mem_keys_insert st a p.1 s hmem with h' | h'
      · exact hp h'
      · exact h.1 h'

theorem keysNodup_erase (st : Store) (a : String) (h : keysNodup st) :
    keysNodup (erase st a) := by
  unfold keysNodup at h ⊢
  exact List.Nodup.sublist ((erase_sublist st a).map Prod.fst) h

theorem keysNodup_sweep (pol : Policy) (now : Int) (st : Store)
    (h : keysNodup st) : keysNodup (sweep pol now st) := by
  unfold keysNodup at h ⊢
  exact List.Nodup.sublist ((List.filter_sublist st).map Prod.fst) h

/-! ### The step characterization -/

/-- `processKnock` in terms of the accumulated session: a full-length
session is resolved (grant on exact match) and its entry deleted; a shorter
one is stored back.  This packages the dict-mutation sequence of lines
96-131 into one equation. -/
theorem processKnock_eq (pol : Policy) (g : GatewayResult) (st : Store)
    (ev : KnockEvent) :
    processKnock pol g st ev =
      if (accumulate pol st ev).ports.length = pol.sequence.length then
        (erase st ev.addr,
         if (accumulate pol st ev).ports = pol.sequence then
           open_protected_port pol.protected_port ev.addr g
         else [])
      else
        (insert st ev.addr (accumulate pol st ev), []) := by
  unfold processKnock accumulate sessionFor
  cases h : lookup st ev.addr with
  | none =>
    simp only [h, lookup_insert_self]
    by_cases hw : ev.time - ev.time > pol.window
    · simp only [hw, if_true, lookup_insert_self, insert_insert, erase_insert,
        List.nil_append]
      split_ifs <;> rfl
    · simp only [hw, if_false, lookup_insert_self, insert_insert, erase_insert,
        List.nil_append]
      split_ifs <;> rfl
  | some s =>
    simp only [h]
    by_cases hw : ev.time - s.started_at > pol.window
    · simp only [hw, if_true, lookup_insert_self, erase_insert]
      split_ifs <;> rfl
    · simp only [hw, if_false, lookup_insert_self, erase_insert]
      split_ifs <;> rfl

/-! ### Sweep lemmas -/

theorem sweep_cons_live (pol : Policy) (now : Int) (p : String × Session)
    (st : Store) (h : ¬ now - p.2.started_at > pol.window) :
    sweep pol now (p :: st) = p :: sweep pol now st := by
  unfold sweep
  rw [List.filter_cons_of_pos (by simpa using h)]

theorem sweep_cons_expired (pol : Policy) (now : Int) (p : String × Session)
    (st : Store) (h : now - p.2.started_at > pol.window) :
    sweep pol now (p :: st) = sweep pol now st := by
  unfold sweep
  rw [List.filter_cons_of_neg (by simp; omega)]

theorem lookup_none_keys (st : Store) (a : String)
    (h : a ∉ st.map Prod.fst) : lookup st a = none := by
  induction st with
  | nil => rfl
  | cons p st ih =>
    simp only [List.map_cons, List.mem_cons] at h
    push_neg at h
    rw [lookup, if_neg (fun hp => h.1 hp.symm)]
    exact ih h.2

theorem keys_lookup_some (st : Store) (a : String) (s : Session)
    (h : lookup st a = some s) : a ∈ st.map Prod.fst := by
  by_contra hmem
  rw [lookup_none_keys st a hmem] at h
  exact Option.noConfusion h

theorem lookup_sweep_none (pol : Policy) (now : Int) (st : Store) (a : String)
    (h : lookup st a = none) : lookup (sweep pol now st) a = none := by
  induction st with
  | nil => rfl
  | cons p st ih =>
    rw [lookup] at h
    by_cases hp : p.1 = a
    · rw [if_pos hp] at h
      exact Option.noConfusion h
    · rw [if_neg hp] at h
      by_cases hk : now - p.2.started_at > pol.window
      · rw [sweep_cons_expired pol now p st hk]
        exact ih h
      · rw [sweep_cons_live pol now p st hk, lookup, if_neg hp]
        exact ih h

/-- A session whose age does not exceed the window is untouched by the
cleanup of lines 138-146. -/
theorem lookup_sweep_live (pol : Policy) (now : Int) (st : Store) (a : String)
    (s : Session) (h : lookup st a = some s)
    (hl : ¬ now - s.started_at > pol.window) :
    lookup (sweep pol now st) a = some s := by
  induction st with
  | nil => simp [lookup] at h
  | cons p st ih =>
    rw [lookup] at h
    by_cases hp : p.1 = a
    · rw [if_pos hp] at h
      injection h with h2
      rw [sweep_cons_live pol now p st (by rw [h2]; exact hl), lookup,
        if_pos hp, h2]
    · rw [if_neg hp] at h
      by_cases hk : now - p.2.started_at > pol.window
      · rw [sweep_cons_expired pol now p st hk]
        exact ih h
      · rw [sweep_cons_live pol now p st hk, lookup, if_neg hp]
        exact ih h

/-- A session whose age exceeds the window is removed by the cleanup of
lines 138-146 (the store's keys being unique, removing the expired entry
leaves no session for its address). -/
theorem lookup_sweep_expired (pol : Policy) (now : Int) (st : Store)
    (a : String) (s : Session) (hn : keysNodup st) (h : lookup st a = some s)
    (he : now - s.started_at > pol.window) :
    lookup (sweep pol now st) a = none := by
  induction st with
  | nil => simp [lookup] at h
  | cons p st ih =>
    unfold keysNodup at hn
    simp only [List.map_cons, List.nodup_cons] at hn
    rw [lookup] at h
    by_cases hp : p.1 = a
    · rw [if_pos hp] at h
      injection h with h2
      rw [sweep_cons_expired pol now p st (by rw [h2]; exact he)]
      exact lookup_sweep_none pol now st a
        (lookup_none_keys st a (by rw [← hp]; exact hn.1))
    · rw [if_neg hp] at h
      by_cases hk : now - p.2.started_at > pol.window
      · rw [sweep_cons_expired pol now p st hk]
        exact ih hn.2 h
      · rw [sweep_cons_live pol now p st hk, lookup, if_neg hp]
        exact ih hn.2 h

/-! ### Reachability invariants -/

/-- Every stored session is strictly shorter than the policy sequence: a
session that reaches the full length is resolved and deleted inside the same
loop body (lines 122-131), never stored back. -/
def sessionsBounded (pol : Policy) (st : Store) : Prop :=
  ∀ p ∈ st, p.2.ports.length < pol.sequence.length

/-- The ports accumulated by one event: either a fresh/reset singleton or the
stored session extended by one port. -/
theorem accumulate_length (pol : Policy) (st : Store) (ev : KnockEvent) :
    (accumulate pol st ev).ports.length = 1 ∨
    ∃ s, lookup st ev.addr = some s ∧
      (accumulate pol st ev).ports.length = s.ports.length + 1 := by
  unfold accumulate sessionFor
  cases h : lookup st ev.addr with
  | none => left; split_ifs <;> simp
  | some s =>
    by_cases hw : ev.time - s.started_at > pol.window
    · left; simp [hw]
    · right; exact ⟨s, rfl, by simp [hw]⟩

/-- One engine step preserves key uniqueness and the strict length bound
(for a non-empty policy sequence). -/
theorem engineStep_preserves (pol : Policy) (hseq : pol.sequence ≠ [])
    (st : Store) (i : EngineInput) (hn : keysNodup st)
    (hb : sessionsBounded pol st) :
    keysNodup (engineStep pol st i).1 ∧
      sessionsBounded pol (engineStep pol st i).1 := by
  have hpos : 0 < pol.sequence.length := List.length_pos.2 hseq
  cases i with
  | tick now =>
    refine ⟨keysNodup_sweep pol now st hn, fun p hp => hb p ?_⟩
    exact (List.filter_sublist st).subset hp
  | knock ev g =>
    show keysNodup (processKnock pol g st ev).1 ∧
      sessionsBounded pol (processKnock pol g st ev).1
    rw [processKnock_eq]
    by_cases h1 : (accumulate pol st ev).ports.length = pol.sequence.length
    · rw [if_pos h1]
      split_ifs <;>
        exact ⟨keysNodup_erase st ev.addr hn,
          fun p hp => hb p ((erase_sublist st ev.addr).subset hp)⟩
    · rw [if_neg h1]
      refine ⟨keysNodup_insert st ev.addr _ hn, fun p hp => ?_⟩
      rcases mem_insert_elim st ev.addr _ p hp with hp' | hp'
      · subst hp'
        show (accumulate pol st ev).ports.length < pol.sequence.length
        rcases accumulate_length pol st ev with hl | ⟨s, hs, hl⟩
        · omega
        · have := hb (ev.addr, s) (lookup_mem st ev.addr s hs)
          simp only at this
          omega
      · exact hb p hp'

/-- Invariant preservation lifted to a whole run of the engine loop. -/
theorem engineRun_inv (pol : Policy) (P : Store → Prop) (Q : EngineInput → Prop)
    (hstep : ∀ st i, Q i → P st → P (engineStep pol st i).1) :
    ∀ (inputs : List EngineInput) (st : Store), (∀ i ∈ inputs, Q i) → P st →
      P (engineRun pol st inputs).1 := by
  intro inputs
  induction inputs with
  | nil => intro st _ h; simpa [engineRun] using h
  | cons i is ih =>
    intro st hQ h
    simp only [engineRun]
    exact ih _ (fun j hj => hQ j (List.mem_cons_of_mem _ hj))
      (hstep st i (hQ i (List.mem_cons_self _ _)) h)

/-- One grant invocation per call of `open_protected_port`, whatever the
outcome of the external command. -/
theorem grantCount_open (pp : Int) (a : String) (g : GatewayResult) :
    grantCount (open_protected_port pp a g) = 1 := by
  cases g <;> rfl

/-- Every port accumulated by one event is either the knocked port itself or
a port already stored for the address. -/
theorem accumulate_ports_sub (pol : Policy) (st : Store) (ev : KnockEvent)
    (q : Int) (hq : q ∈ (accumulate pol st ev).ports) :
    q = ev.port ∨ ∃ s, lookup st ev.addr = some s ∧ q ∈ s.ports := by
  unfold accumulate sessionFor at hq
  cases h : lookup st ev.addr with
  | none =>
    rw [h] at hq
    split_ifs at hq <;> simp at hq <;> exact Or.inl hq
  | some s =>
    rw [h] at hq
    split_ifs at hq
    · simp at hq
      exact Or.inl hq
    · simp only [List.mem_append, List.mem_singleton] at hq
      rcases hq with hq | hq
      · exact Or.inr ⟨s, rfl, hq⟩
      · exact Or.inl hq

/-! ### Parsing lemmas -/

theorem pySplit_ne_nil (sep : Char) (l : List Char) : pySplit sep l ≠ [] := by
  cases l with
  | nil => simp [pySplit]
  | cons c cs =>
    unfold pySplit
    by_cases h : c = sep
    · simp [h]
    · rw [if_neg h]
      cases pySplit sep cs <;> simp

theorem intsOfParts_none_of_mem (f : α → Option β) (l : List α) (a : α)
    (ha : a ∈ l) (hf : f a = none) : intsOfParts f l = none := by
  induction l with
  | nil => cases ha
  | cons b bs ih =>
    rcases List.mem_cons.1 ha with h | h
    · subst h
      unfold intsOfParts
      rw [hf]
    · unfold intsOfParts
      cases f b with
      | none => rfl
      | some b' => rw [ih h]; rfl

theorem intsOfParts_length (f : α → Option β) :
    ∀ (l : List α) (r : List β), intsOfParts f l = some r → r.length = l.length := by
  intro l
  induction l with
  | nil =>
    intro r h
    unfold intsOfParts at h
    injection h with h
    subst h
    rfl
  | cons b bs ih =>
    intro r h
    unfold intsOfParts at h
    cases hb : f b with
    | none => rw [hb] at h; exact Option.noConfusion h
    | some b' =>
      rw [hb] at h
      cases hms : intsOfParts f bs with
      | none => rw [hms] at h; exact Option.noConfusion h
      | some rs =>
        rw [hms] at h
        have hr : b' :: rs = r := Option.some.inj h
        rw [← hr, List.length_cons, List.length_cons, ih rs hms]

/-- A successfully parsed `--sequence` option is never the empty list (Python
`split` always yields at least one piece). -/
theorem parse_sequence_ne_nil (s : String) (l : List Int)
    (h : parse_sequence s = some l) : l ≠ [] := by
  intro hnil
  subst hnil
  have := intsOfParts_length pyInt? (pySplit ',' s.data) [] h
  exact pySplit_ne_nil ',' s.data (List.length_eq_zero.1 this.symm)

/-- A knock event is admissible for the engine when its port comes from one
of the sockets the listener set actually bound (lines 72-84); timer ticks
are always admissible. -/
def knockFromBound (pol : Policy) (bindOk : Int → Bool) : EngineInput → Prop
  | EngineInput.knock ev _ => ev.port ∈ bindSockets pol.sequence bindOk
  | EngineInput.tick _ => True

instance (pol : Policy) (bindOk : Int → Bool) (i : EngineInput) :
    Decidable (knockFromBound pol bindOk i) := by
  cases i <;> unfold knockFromBound <;> infer_instance

/-! ### Concrete fixtures used by the witnesses -/

/-- The example policy of the spec: `sequence=[1234,5678,9012]`, window 10
seconds, protected port 2222 (the source defaults, lines 11-13). -/
def examplePolicy : Policy :=
  { sequence := [1234, 5678, 9012], window := 10, protected_port := 2222 }

/-- A store holding one session two knocks into the example sequence. -/
def exampleMidStore : Store :=
  [("A", { ports := [1234, 5678], started_at := 0 })]

/-- A store holding one session one knock into the example sequence. -/
def exampleOneStore : Store :=
  [("A", { ports := [1234], started_at := 0 })]

/-- The interleaved two-address scenario of the spec:
`A:1234, B:1234, A:5678, B:5678, A:9012, B:9012`. -/
def interleavedInputs : List EngineInput :=
  [EngineInput.knock { addr := "A", port := 1234, time := 0 } GatewayResult.ok,
   EngineInput.knock { addr := "B", port := 1234, time := 1 } GatewayResult.ok,
   EngineInput.knock { addr := "A", port := 5678, time := 2 } GatewayResult.ok,
   EngineInput.knock { addr := "B", port := 5678, time := 3 } GatewayResult.ok,
   EngineInput.knock { addr := "A", port := 9012, time := 4 } GatewayResult.ok,
   EngineInput.knock { addr := "B", port := 9012, time := 5 } GatewayResult.ok]

/-! ### The claims -/

/-- C1: for every session whose received port count has just reached the
length of the policy sequence, the engine invokes the gateway grant exactly
once if and only if the collected ports equal the policy sequence in exact
order, and in either case (match or mismatch) the session for that address
is removed from the store in the same step (lines 122-131). -/
theorem claim1_full_length_resolution (pol : Policy) (g : GatewayResult)
    (st : Store) (ev : KnockEvent)
    (h : (accumulate pol st ev).ports.length = pol.sequence.length) :
    lookup (processKnock pol g st ev).1 ev.addr = none ∧
    (processKnock pol g st ev).2 =
      (if (accumulate pol st ev).ports = pol.sequence then
        open_protected_port pol.protected_port ev.addr g
      else []) ∧
    (grantCount (processKnock pol g st ev).2 = 1 ↔
      (accumulate pol st ev).ports = pol.sequence) := by
  rw [processKnock_eq, if_pos h]
  refine ⟨lookup_erase_self st ev.addr, rfl, ?_⟩
  by_cases he : (accumulate pol st ev).ports = pol.sequence
  · simp [he, grantCount_open]
  · simp [he, grantCount]

theorem claim1_full_length_resolution_witness :
    lookup (processKnock examplePolicy GatewayResult.ok exampleMidStore
      { addr := "A", port := 9012, time := 5 }).1 "A" = none ∧
    grantCount (processKnock examplePolicy GatewayResult.ok exampleMidStore
      { addr := "A", port := 9012, time := 5 }).2 = 1 := by
  have h := claim1_full_length_resolution examplePolicy GatewayResult.ok
    exampleMidStore { addr := "A", port := 9012, time := 5 } (by decide)
  exact ⟨h.1, h.2.2.2 (by decide)⟩

/-- C3: a knock from an address with no current session, or whose session's
age exceeds the window, yields exactly the fresh session
`{received_ports = [port], started_at = t}` — no port of the stale session
is carried over (lines 99-115); the fresh session is then resolved normally
(it completes immediately only when the policy sequence has length one). -/
theorem claim3_fresh_or_expired_restart (pol : Policy) (g : GatewayResult)
    (st : Store) (ev : KnockEvent)
    (h : lookup st ev.addr = none ∨
      ∃ s, lookup st ev.addr = some s ∧ ev.time - s.started_at > pol.window) :
    accumulate pol st ev = { ports := [ev.port], started_at := ev.time } ∧
    processKnock pol g st ev =
      (if 1 = pol.sequence.length then
        (erase st ev.addr,
         if [ev.port] = pol.sequence then
           open_protected_port pol.protected_port ev.addr g
         else [])
      else
        (insert st ev.addr { ports := [ev.port], started_at := ev.time }, [])) := by
  have hacc : accumulate pol st ev =
      { ports := [ev.port], started_at := ev.time } := by
    unfold accumulate sessionFor
    rcases h with h | ⟨s, h, hw⟩
    · rw [h]
      split_ifs <;> simp
    · rw [h, if_pos hw]
  refine ⟨hacc, ?_⟩
  rw [processKnock_eq, hacc]
  rfl

theorem claim3_fresh_or_expired_restart_witness :
    accumulate examplePolicy
      [("A", { ports := [1234], started_at := 0 })]
      { addr := "A", port := 5678, time := 11 } =
      { ports := [5678], started_at := 11 } :=
  (claim3_fresh_or_expired_restart examplePolicy GatewayResult.ok
    [("A", { ports := [1234], started_at := 0 })]
    { addr := "A", port := 5678, time := 11 }
    (Or.inr ⟨{ ports := [1234], started_at := 0 }, by decide, by decide⟩)).1

/-- C4: a knock whose port deviates from the expected next element is not
rejected as long as the appended count stays strictly below the policy
sequence length: the session stays in the store, Collecting, with the port
appended (the theorem places no constraint relating `ev.port` to the policy
sequence, so it covers deviating ports in particular; lines 113-131). -/
theorem claim4_no_early_rejection (pol : Policy) (g : GatewayResult)
    (st : Store) (ev : KnockEvent) (s : Session)
    (hs : lookup st ev.addr = some s)
    (hw : ¬ ev.time - s.started_at > pol.window)
    (hlen : s.ports.length + 1 < pol.sequence.length) :
    processKnock pol g st ev =
      (insert st ev.addr
        { ports := s.ports ++ [ev.port], started_at := s.started_at }, []) ∧
    lookup (processKnock pol g st ev).1 ev.addr =
      some { ports := s.ports ++ [ev.port], started_at := s.started_at } := by
  have hacc : accumulate pol st ev =
      { ports := s.ports ++ [ev.port], started_at := s.started_at } := by
    unfold accumulate sessionFor
    rw [hs, if_neg hw]
  have hne : ¬ (accumulate pol st ev).ports.length = pol.sequence.length := by
    rw [hacc]
    simp only [List.length_append, List.length_singleton]
    omega
  rw [processKnock_eq, if_neg hne, hacc]
  exact ⟨rfl, lookup_insert_self st ev.addr _⟩

theorem claim4_no_early_rejection_witness :
    lookup (processKnock examplePolicy GatewayResult.ok exampleOneStore
      { addr := "A", port := 9999, time := 5 }).1 "A" =
      some { ports := [1234, 9999], started_at := 0 } :=
  (claim4_no_early_rejection examplePolicy GatewayResult.ok exampleOneStore
    { addr := "A", port := 9999, time := 5 }
    { ports := [1234], started_at := 0 }
    (by decide) (by decide) (by decide)).2

/-- C6: processing a knock event for address `A` leaves the session of every
other address `B` unchanged (the loop body of lines 96-131 only ever reads
and writes `knock_attempts[client_ip]`); consequently, in the interleaved
scenario `A:1234, B:1234, A:5678, B:5678, A:9012, B:9012` against the
example policy, both addresses are granted, independently. -/
theorem claim6_frame_independence :
    (∀ (pol : Policy) (g : GatewayResult) (st : Store) (ev : KnockEvent)
       (b : String), b ≠ ev.addr →
        lookup (processKnock pol g st ev).1 b = lookup st b) ∧
    (engineRun examplePolicy [] interleavedInputs).2 =
      [Effect.grant 2222 "A", Effect.grant 2222 "B"] := by
  constructor
  · intro pol g st ev b hb
    rw [processKnock_eq]
    split_ifs <;>
      simp [lookup_erase_ne st ev.addr b hb, lookup_insert_ne st ev.addr b _ hb]
  · decide

theorem claim6_frame_independence_witness :
    lookup (processKnock examplePolicy GatewayResult.ok exampleMidStore
      { addr := "A", port := 9012, time := 5 }).1 "B" =
      lookup exampleMidStore "B" :=
  claim6_frame_independence.1 examplePolicy GatewayResult.ok exampleMidStore
    { addr := "A", port := 9012, time := 5 } "B" (by decide)

/-- C9: when a knock completes the correct sequence, the gateway is invoked
exactly once whatever its outcome; a `CalledProcessError` of the external
grant command is reported (logged) but the session is destroyed regardless —
the terminal outcome is not rolled back and the grant is not retried
(lines 24-41 and 122-131). -/
theorem claim9_gateway_failure_semantics (pol : Policy) (g : GatewayResult)
    (st : Store) (ev : KnockEvent)
    (hm : (accumulate pol st ev).ports = pol.sequence) :
    lookup (processKnock pol g st ev).1 ev.addr = none ∧
    (processKnock pol g st ev).2 =
      open_protected_port pol.protected_port ev.addr g ∧
    grantCount (processKnock pol g st ev).2 = 1 ∧
    (g = GatewayResult.calledProcessError →
      Effect.grantFailed ev.addr ∈ (processKnock pol g st ev).2) := by
  have hlen : (accumulate pol st ev).ports.length = pol.sequence.length := by
    rw [hm]
  rw [processKnock_eq, if_pos hlen, if_pos hm]
  refine ⟨lookup_erase_self st ev.addr, rfl, grantCount_open _ _ _, ?_⟩
  intro hg
  subst hg
  simp [open_protected_port]

theorem claim9_gateway_failure_semantics_witness :
    lookup (processKnock examplePolicy GatewayResult.calledProcessError
      exampleMidStore { addr := "A", port := 9012, time := 5 }).1 "A" =
      none :=
  (claim9_gateway_failure_semantics examplePolicy
    GatewayResult.calledProcessError exampleMidStore
    { addr := "A", port := 9012, time := 5 } (by decide)).1

/-- C2: at every reachable point of the engine's execution (any finite run
from the empty store, for a non-empty policy sequence), the store holds at
most one session per source address, and every stored session's
received-port count is strictly below the policy sequence length — a session
that reaches that length is granted or discarded within the same step, never
retained across steps. -/
theorem claim2_store_invariant (pol : Policy) (hseq : pol.sequence ≠ [])
    (inputs : List EngineInput) :
    keysNodup (engineRun pol [] inputs).1 ∧
    ∀ p ∈ (engineRun pol [] inputs).1,
      p.2.ports.length < pol.sequence.length :=
  engineRun_inv pol (fun st => keysNodup st ∧ sessionsBounded pol st)
    (fun _ => True)
    (fun st i _ h => engineStep_preserves pol hseq st i h.1 h.2)
    inputs [] (fun _ _ => trivial)
    ⟨List.nodup_nil, fun p hp => absurd hp (List.not_mem_nil p)⟩

theorem claim2_store_invariant_witness :
    keysNodup (engineRun examplePolicy [] interleavedInputs).1 :=
  (claim2_store_invariant examplePolicy (by decide) interleavedInputs).1

/-- C5: a sweep at time `t` removes every session whose age `t - started_at`
exceeds the policy window, leaves every other session unchanged, and emits
no gateway effect whatsoever (lines 138-146 only delete dict entries). -/
theorem claim5_expiry_sweeper (pol : Policy) (now : Int) (st : Store)
    (hn : keysNodup st) :
    (∀ a s, lookup st a = some s → now - s.started_at > pol.window →
      lookup (sweep pol now st) a = none) ∧
    (∀ a s, lookup st a = some s → ¬ now - s.started_at > pol.window →
      lookup (sweep pol now st) a = some s) ∧
    (engineStep pol st (EngineInput.tick now)).2 = [] :=
  ⟨fun a s h he => lookup_sweep_expired pol now st a s hn h he,
   fun a s h hl => lookup_sweep_live pol now st a s h hl, rfl⟩

theorem claim5_expiry_sweeper_witness :
    lookup (sweep examplePolicy 11 exampleOneStore) "A" = none :=
  (claim5_expiry_sweeper examplePolicy 11 exampleOneStore (by decide)).1 "A"
    { ports := [1234], started_at := 0 } (by decide) (by decide)

/-- C7: every successful startup-and-run of `main` (lines 173-187) emits the
default-deny effect for the protected port as its very first gateway effect,
before any knock event is processed — so before any grant can occur. -/
theorem claim7_deny_before_any_grant (sequenceArg : String)
    (pp window : Int) (inputs : List EngineInput) (st : Store)
    (es : List Effect)
    (h : pyMain sequenceArg pp window inputs = some (st, es)) :
    es.head? = some (Effect.deny pp) ∧
    ∀ (i : Nat) (p : Int) (a : String),
      es.get? i = some (Effect.grant p a) → 0 < i := by
  unfold pyMain at h
  cases hp : parse_sequence sequenceArg with
  | none => rw [hp] at h; exact Option.noConfusion h
  | some seq =>
    rw [hp] at h
    injection h with h
    rw [Prod.mk.injEq] at h
    obtain ⟨hst, hes⟩ := h
    subst hes
    constructor
    · rfl
    · intro i p a hg
      cases i with
      | zero => simp [close_protected_port] at hg
      | succ i => exact Nat.succ_pos i

theorem claim7_deny_before_any_grant_witness :
    ([Effect.deny 2222] : List Effect).head? = some (Effect.deny 2222) :=
  (claim7_deny_before_any_grant "1234,5678,9012" 2222 10 [] []
    [Effect.deny 2222] (by decide)).1

/-- C8: a configuration whose sequence option has a comma-separated element
that is not an integer literal makes startup fail fatally (`SystemExit`
before any firewall call or listener bind, lines 177-180); and no
configuration string can denote an empty sequence — a successfully parsed
sequence is always non-empty. -/
theorem claim8_invalid_sequence_fatal (s : String) :
    ((∃ part ∈ pySplit ',' s.data, pyInt? part = none) →
      ∀ (pp window : Int) (inputs : List EngineInput),
        pyMain s pp window inputs = none) ∧
    ∀ l, parse_sequence s = some l → l ≠ [] := by
  constructor
  · rintro ⟨part, hmem, hnone⟩ pp window inputs
    have hps : parse_sequence s = none :=
      intsOfParts_none_of_mem pyInt? (pySplit ',' s.data) part hmem hnone
    unfold pyMain
    rw [hps]
  · exact parse_sequence_ne_nil s

theorem claim8_invalid_sequence_fatal_witness :
    pyMain "12,ab" 2222 10 [] = none :=
  (claim8_invalid_sequence_fatal "12,ab").1 (by decide) 2222 10 []

/-- C10: knock events can only carry ports of sockets the listener set
bound, and those are always ports of the policy sequence (lines 72-84); as
a consequence, every port recorded in any stored session during any run is
a member of the policy sequence. -/
theorem claim10_session_ports_bound (pol : Policy) (bindOk : Int → Bool)
    (inputs : List EngineInput)
    (hin : ∀ i ∈ inputs, knockFromBound pol bindOk i) :
    (∀ q ∈ bindSockets pol.sequence bindOk, q ∈ pol.sequence) ∧
    ∀ a s, lookup (engineRun pol [] inputs).1 a = some s →
      ∀ q ∈ s.ports, q ∈ pol.sequence := by
  have hbind : ∀ q ∈ bindSockets pol.sequence bindOk, q ∈ pol.sequence :=
    fun q hq => (List.mem_filter.1 hq).1
  have hstep : ∀ (st : Store) (i : EngineInput), knockFromBound pol bindOk i →
      (∀ p ∈ st, ∀ q ∈ p.2.ports, q ∈ pol.sequence) →
      ∀ p ∈ (engineStep pol st i).1, ∀ q ∈ p.2.ports, q ∈ pol.sequence := by
    intro st i hQ hP
    cases i with
    | tick now =>
      intro p hp
      exact hP p ((List.filter_sublist st).subset hp)
    | knock ev g =>
      show ∀ p ∈ (processKnock pol g st ev).1, _
      rw [processKnock_eq]
      split_ifs with h1 h2
      · intro p hp
        exact hP p ((erase_sublist st ev.addr).subset hp)
      · intro p hp
        exact hP p ((erase_sublist st ev.addr).subset hp)
      · intro p hp
        rcases mem_insert_elim st ev.addr _ p hp with hp' | hp'
        · subst hp'
          intro q hq
          rcases accumulate_ports_sub pol st ev q hq with h | ⟨s, hls, hqs⟩
          · subst h
            exact hbind ev.port hQ
          · exact hP (ev.addr, s) (lookup_mem st ev.addr s hls) q hqs
        · exact hP p hp'
  refine ⟨hbind, fun a s hs q hq => ?_⟩
  have hrun := engineRun_inv pol
    (fun st => ∀ p ∈ st, ∀ q ∈ p.2.ports, q ∈ pol.sequence)
    (knockFromBound pol bindOk) hstep inputs []
    hin (fun p hp => absurd hp (List.not_mem_nil p))
  exact hrun (a, s) (lookup_mem _ a s hs) q hq

theorem claim10_session_ports_bound_witness :
    (1234 : Int) ∈ examplePolicy.sequence :=
  (claim10_session_ports_bound examplePolicy (fun _ => true)
    [EngineInput.knock { addr := "A", port := 1234, time := 0 } GatewayResult.ok,
     EngineInput.knock { addr := "B", port := 1234, time := 1 } GatewayResult.ok]
    (by decide)).2 "A" { ports := [1234], started_at := 0 } (by decide)
    1234 (by decide)

end KnockServer
